import Mathlib

/-!
Verification of the scroll-step intersection engine bundled in
`src/src/setupScrollama.js`: the IntersectionObserver polyfill's rectangle
geometry and threshold logic, and scrollama's step sequencer and session
lifecycle. JS numbers are modelled as rationals; DOM elements are abstracted
to the data the code reads from them (rects, offsets, step indices).
-/

namespace Scrollama

/-- A viewport rectangle as the JS source passes it around: the rect objects
carry all six fields (`top`, `bottom`, `left`, `right`, `width`, `height`),
so the model stores all six rather than deriving two of them. -/
structure Rect where
  top : ℚ
  bottom : ℚ
  left : ℚ
  right : ℚ
  width : ℚ
  height : ℚ
deriving DecidableEq, Repr

/-- `computeRectIntersection(rect1, rect2)` from the polyfill: the JS returns
the object when `width >= 0 && height >= 0` and the boolean `false` (treated
as "no intersection" by its caller) otherwise, which we model with `Option`. -/
def computeRectIntersection (rect1 rect2 : Rect) : Option Rect :=
  let top := max rect1.top rect2.top
  let bottom := min rect1.bottom rect2.bottom
  let left := max rect1.left rect2.left
  let right := min rect1.right rect2.right
  let width := right - left
  let height := bottom - top
  if 0 ≤ width ∧ 0 ≤ height then
    some { top := top, bottom := bottom, left := left, right := right,
           width := width, height := height }
  else none

/-- A point `(x, y)` lies inside a rectangle (viewport coordinates: `top` is
the smaller y-coordinate of the two horizontal edges). -/
def pointIn (r : Rect) (x y : ℚ) : Prop :=
  r.left ≤ x ∧ x ≤ r.right ∧ r.top ≤ y ∧ y ≤ r.bottom

instance (r : Rect) (x y : ℚ) : Decidable (pointIn r x y) := by
  unfold pointIn; infer_instance

/-- A root-margin component: `{value, unit}` as produced by
`_parseRootMargin`, where the unit is `px` or `%`. -/
inductive MarginUnit
  | px
  | pct
deriving DecidableEq, Repr

/-- One parsed margin, `{value: parseFloat(parts[1]), unit: parts[2]}`. -/
structure Margin where
  value : ℚ
  unit : MarginUnit
deriving DecidableEq, Repr

/-- Resolution of one margin against a reference dimension, mirroring
`margin.unit == 'px' ? margin.value : margin.value * dim / 100` inside
`_expandRectByRootMargin`. -/
def resolveMargin (m : Margin) (dim : ℚ) : ℚ :=
  match m.unit with
  | .px => m.value
  | .pct => m.value * dim / 100

/-- `IntersectionObserver.prototype._expandRectByRootMargin(rect)`. The
source maps over the four stored margins `[m0, m1, m2, m3]` (top, right,
bottom, left) resolving each with `i % 2 ? rect.width : rect.height`, so the
even-indexed top/bottom margins resolve against the height and the
odd-indexed right/left margins against the width; it then offsets each edge
and recomputes `width`/`height` from the new edges. -/
def expandRectByRootMargin (rect : Rect) (m0 m1 m2 m3 : Margin) : Rect :=
  let mTop := resolveMargin m0 rect.height
  let mRight := resolveMargin m1 rect.width
  let mBottom := resolveMargin m2 rect.height
  let mLeft := resolveMargin m3 rect.width
  let top := rect.top - mTop
  let right := rect.right + mRight
  let bottom := rect.bottom + mBottom
  let left := rect.left - mLeft
  { top := top, right := right, bottom := bottom, left := left,
    width := right - left, height := bottom - top }

/-- The part of an `IntersectionObserverEntry` that `_hasCrossedThreshold`
reads: the intersecting flag and the intersection ratio. -/
structure ObsEntry where
  isIntersecting : Bool
  intersectionRatio : ℚ
deriving DecidableEq, Repr

/-- `IntersectionObserver.prototype._hasCrossedThreshold(oldEntry, newEntry)`.
An entry that does not intersect is given the effective ratio `-1`; the
source's `intersectionRatio || 0` is the identity on rationals (it replaces a
ratio of `0` by `0`), so it is dropped. Unchanged ratios return early; the
loop over the thresholds is the `List.any` below. The JS returns `undefined`
(falsy) instead of `false`, modelled as `false`. -/
def hasCrossedThreshold (thresholds : List ℚ) (oldEntry : Option ObsEntry)
    (newEntry : ObsEntry) : Bool :=
  let oldRatio : ℚ :=
    match oldEntry with
    | some o => if o.isIntersecting then o.intersectionRatio else -1
    | none => -1
  let newRatio : ℚ := if newEntry.isIntersecting then newEntry.intersectionRatio else -1
  if oldRatio = newRatio then false
  else
    thresholds.any fun threshold =>
      decide (threshold = oldRatio) || decide (threshold = newRatio) ||
        (decide (threshold < oldRatio) != decide (threshold < newRatio))

/-- The effective ratio of a stored report, as the spec words it: `-1` when
non-intersecting, the real ratio otherwise. -/
def effectiveRatio (e : Option ObsEntry) : ℚ :=
  match e with
  | some o => if o.isIntersecting then o.intersectionRatio else -1
  | none => -1

/-- Modelled from the spec's words (the crossing rule of claim C2, for
comparison with `hasCrossedThreshold`): some threshold equals one of the two
effective ratios, or the two effective ratios lie on opposite sides of some
threshold. -/
def crossedSpec (thresholds : List ℚ) (oldR newR : ℚ) : Prop :=
  ∃ t ∈ thresholds, t = oldR ∨ t = newR ∨ ((t < oldR) ≠ (t < newR))

instance (thresholds : List ℚ) (oldR newR : ℚ) :
    Decidable (crossedSpec thresholds oldR newR) := by
  unfold crossedSpec; infer_instance

/-- One value of the user-supplied threshold list handed to
`_initThresholds`: a finite number, `NaN`, or a value of non-number type. -/
inductive JSVal
  | num (q : ℚ)
  | nan
  | nonNumber
deriving DecidableEq, Repr

/-- The test inside the filter callback of `_initThresholds` that makes it
throw: `typeof t != 'number' || isNaN(t) || t < 0 || t > 1`. -/
def invalidThreshold : JSVal → Bool
  | .num q => decide (q < 0) || decide (1 < q)
  | .nan => true
  | .nonNumber => true

/-- The numeric value of a threshold entry (total on the valid entries the
sorted pass processes; the invalid ones have thrown before it matters). -/
def jsValNum : JSVal → ℚ
  | .num q => q
  | .nan => 0
  | .nonNumber => 0

/-- The deduplication the source's filter `t !== a[i - 1]` performs over the
sorted array: an element is dropped exactly when it equals the element right
before it in the array. -/
def dedupAdjacentGo (prev : ℚ) : List ℚ → List ℚ
  | [] => []
  | b :: rest =>
      if b = prev then dedupAdjacentGo b rest else b :: dedupAdjacentGo b rest

/-- Adjacent-duplicate removal over a whole list: the head is always kept
(the source's `a[i - 1]` is `undefined` at index 0). -/
def dedupAdjacent : List ℚ → List ℚ
  | [] => []
  | a :: rest => a :: dedupAdjacentGo a rest

/-- The message of the error `_initThresholds` throws. -/
def thresholdErrMsg : String :=
  "threshold must be a number between 0 and 1 inclusively"

/-- Multiplicity of `p` in `n` (how many times `p` divides `n`; 0 when
`p ≤ 1` or `n = 0`), with structural fuel so it evaluates by reduction. -/
def factorMultAux (p : ℕ) : ℕ → ℕ → ℕ
  | 0, _ => 0
  | fuel + 1, n =>
      if 1 < p ∧ 0 < n ∧ n % p = 0 then factorMultAux p fuel (n / p) + 1
      else 0

/-- Multiplicity of `p` in `n`. -/
def factorMult (p n : ℕ) : ℕ :=
  factorMultAux p n n

/-- The formatting step of ECMA-262 `Number::toString` (radix 10): given the
shortest digit sequence `s` of a positive number `0.s * 10 ^ n`, produce its
character sequence — plain decimal while the decimal exponent `n` stays in
`(-6, 21]`, exponential notation (`1e-7`, `1e+21`) outside. -/
def jsFormatDecimal (s : List Char) (n : ℤ) : List Char :=
  let k : ℤ := s.length
  if k ≤ n ∧ n ≤ 21 then s ++ List.replicate (n - k).toNat '0'
  else if 0 < n ∧ n ≤ 21 then s.take n.toNat ++ ['.'] ++ s.drop n.toNat
  else if -6 < n ∧ n ≤ 0 then ['0', '.'] ++ List.replicate (-n).toNat '0' ++ s
  else
    s.take 1 ++ (if s.length = 1 then [] else ['.'] ++ s.drop 1) ++ ['e'] ++
      (if 0 ≤ n - 1 then ['+'] else ['-']) ++ Nat.toDigits 10 (n - 1).natAbs

/-- The digit extraction of `Number::toString` for a positive rational with
a finite decimal expansion (exactly the idealized values of plain JS number
literals): scale by the least power of ten making the value integral, strip
trailing zeros, and hand the shortest digits and decimal exponent to the
formatter. (On rationals with other denominators — values no JS number
takes — the scaling truncates; such values are never produced here.) -/
def jsNumberCharsPos (q : ℚ) : List Char :=
  let kpow := max (factorMult 2 q.den) (factorMult 5 q.den)
  let M := q.num.toNat * (10 ^ kpow / q.den)
  let t := factorMult 10 M
  let d := M / 10 ^ t
  let s := Nat.toDigits 10 d
  jsFormatDecimal s ((s.length : ℤ) + t - kpow)

/-- The character sequence of ECMA-262 `ToString` on a number: what the
comparator-less `Array.prototype.sort()` of the source compares. -/
def jsNumberChars (q : ℚ) : List Char :=
  if q = 0 then ['0']
  else if q < 0 then '-' :: jsNumberCharsPos (-q)
  else jsNumberCharsPos q

/-- Lexicographic comparison of character sequences by code point: the
string `<` that `Array.prototype.sort()`'s default comparator applies to
the `ToString` images of the elements. -/
def charsLt : List Char → List Char → Bool
  | [], [] => false
  | [], _ :: _ => true
  | _ :: _, [] => false
  | a :: as, b :: bs =>
      if a.toNat < b.toNat then true
      else if b.toNat < a.toNat then false
      else charsLt as bs

/-- The ordering the source's `threshold.sort()` establishes: ascending by
the lexicographic order of the elements' `ToString` images — NOT numeric
order (`"0.5" < "1e-7"` although `1e-7 < 0.5`). -/
def jsSortLe (a b : ℚ) : Prop :=
  charsLt (jsNumberChars b) (jsNumberChars a) = false

instance (a b : ℚ) : Decidable (jsSortLe a b) := by
  unfold jsSortLe
  infer_instance

/-- `IntersectionObserver.prototype._initThresholds(opt_threshold)`: defaults
to `[0]`, throws on any entry that is non-numeric, `NaN` or outside `[0, 1]`,
and otherwise returns the array sorted by the default JS sort — ascending by
`ToString` image — with adjacent duplicates removed (the filter compares the
numbers themselves with `!==`; equal numbers have equal images, so they stay
adjacent after the sort). The input is modelled as the already-wrapped list
(the source wraps a bare number in a one-element array first). The source
validates inside the filter callback, after sorting; since the filter visits
every element, the observable result is the same as validating first, as
done here. -/
def initThresholds (optThreshold : Option (List JSVal)) : Except String (List ℚ) :=
  let threshold := optThreshold.getD [.num 0]
  if threshold.any invalidThreshold then .error thresholdErrMsg
  else .ok (dedupAdjacent (List.insertionSort jsSortLe (threshold.map jsValNum)))

/-- Scroll direction, as the string `'up' | 'down'` held in scrollama's
`direction` and in each step state's `direction` field (`null` before the
first trigger, modelled as `Option Dir`). -/
inductive Dir
  | up
  | down
deriving DecidableEq, Repr

/-- A step state's `state` field: `'enter' | 'exit'` (`null` initially). -/
inductive Phase
  | enter
  | exit
deriving DecidableEq, Repr

/-- One entry of scrollama's `stepStates` array:
`{direction: null, state: null}` at `setupStates`. -/
structure StepState where
  direction : Option Dir
  state : Option Phase
deriving DecidableEq, Repr

instance : Inhabited StepState := ⟨⟨none, none⟩⟩

/-- One observable callback invocation of the sequencer: the payloads of
`callback.stepEnter`, `callback.stepExit` and `callback.stepProgress`
restricted to what the claims speak about (index, direction, progress). -/
inductive Event
  | enter (index : ℕ) (direction : Dir)
  | exit (index : ℕ) (direction : Dir)
  | progress (index : ℕ) (value : ℚ)
deriving DecidableEq, Repr

/-- The sequencer configuration captured by the closure in `scrollama()`:
the option flags, plus whether each callback slot holds a function (the
source guards every invocation with
`callback.x && typeof callback.x === 'function'`). -/
structure SeqCfg where
  preserveOrder : Bool
  triggerOnce : Bool
  progressMode : Bool
  hasEnterCb : Bool
  hasExitCb : Bool
  hasProgressCb : Bool
deriving DecidableEq, Repr

/-- The sequencer's mutable state: the `stepStates` array and the sparse
`exclude` array (`exclude[index]` is `undefined`, hence falsy, until
`triggerOnce` sets it). -/
structure SeqState where
  stepStates : List StepState
  exclude : List Bool
deriving DecidableEq, Repr

/-- `exclude[index] = true` on a JS array: assigning past the end extends
the array, holes reading back as falsy (`false` here). -/
def setExclude (l : List Bool) (index : ℕ) : List Bool :=
  if index < l.length then l.set index true
  else l ++ List.replicate (index - l.length) false ++ [true]

/-- `stepStates[index].direction = direction; stepStates[index].state = ph`:
both fields of the entry are overwritten. -/
def setStepState (s : SeqState) (index : ℕ) (d : Dir) (ph : Phase) : SeqState :=
  { s with stepStates := s.stepStates.set index ⟨some d, some ph⟩ }

/-- `notifyStepProgress(element, progress)`: invokes the progress callback
when one is registered. -/
def notifyStepProgress (cfg : SeqCfg) (index : ℕ) (progress : ℚ) : List Event :=
  if cfg.hasProgressCb then [.progress index progress] else []

/-- `notifyStepExit(element, direction)`: records direction and `'exit'` in
the step's state, primes progress to 1 (down) or 0 (up) in progress mode,
then invokes the exit callback (note: not gated by `exclude`). -/
def notifyStepExit (cfg : SeqCfg) (s : SeqState) (index : ℕ) (d : Dir) :
    SeqState × List Event :=
  let evsP := if cfg.progressMode then
      (if d = .down then notifyStepProgress cfg index 1
       else notifyStepProgress cfg index 0)
    else []
  let evsX := if cfg.hasExitCb then [Event.exit index d] else []
  (setStepState s index d .exit, evsP ++ evsX)

/-- The part of `notifyStepEnter` after the `preserveOrder` block: the enter
callback guarded by `exclude[index]` (setting the flag when `triggerOnce`),
then progress priming to 0 (down) or 1 (up) in progress mode. -/
def enterTail (cfg : SeqCfg) (s : SeqState) (index : ℕ) (d : Dir) :
    SeqState × List Event :=
  let r1 :=
    if cfg.hasEnterCb ∧ ¬(s.exclude.getD index false) then
      (if cfg.triggerOnce then { s with exclude := setExclude s.exclude index }
       else s,
       [Event.enter index d])
    else (s, [])
  let evsP := if cfg.progressMode then
      (if d = .down then notifyStepProgress cfg index 0
       else notifyStepProgress cfg index 1)
    else []
  (r1.1, r1.2 ++ evsP)

/-- `notifyStepEnter(element, direction, false)`: the `check = false` call
used by `notifyOthers`, which skips the ordering block (so the recursion
between `notifyStepEnter` and `notifyOthers` is one level deep). -/
def notifyStepEnterNoCheck (cfg : SeqCfg) (s : SeqState) (index : ℕ) (d : Dir) :
    SeqState × List Event :=
  enterTail cfg (setStepState s index d .enter) index d

/-- One iteration of the `location === 'above'` loop of `notifyOthers` at
index `i`: a step still in state `'enter'` gets a synthesized exit; the
direction field is then re-read (in the JS, `ss` aliases the mutated state
object, and the exit just stored direction `'down'`), and a step whose
recorded direction is `'up'` gets a synthesized enter+exit pair, all with
direction `'down'`. -/
def othersAboveStep (cfg : SeqCfg) (s : SeqState) (i : ℕ) :
    SeqState × List Event :=
  let ss := s.stepStates.getD i default
  let r1 :=
    if ss.state = some .enter then notifyStepExit cfg s i .down else (s, [])
  let ss2 := r1.1.stepStates.getD i default
  let r2 :=
    if ss2.direction = some .up then
      let ra := notifyStepEnterNoCheck cfg r1.1 i .down
      let rb := notifyStepExit cfg ra.1 i .down
      (rb.1, ra.2 ++ rb.2)
    else (r1.1, [])
  (r2.1, r1.2 ++ r2.2)

/-- One iteration of the `location === 'below'` loop of `notifyOthers` at
index `i`: symmetric to `othersAboveStep` with direction `'up'`, the
enter+exit pair firing when the re-read direction is `'down'`. -/
def othersBelowStep (cfg : SeqCfg) (s : SeqState) (i : ℕ) :
    SeqState × List Event :=
  let ss := s.stepStates.getD i default
  let r1 :=
    if ss.state = some .enter then notifyStepExit cfg s i .up else (s, [])
  let ss2 := r1.1.stepStates.getD i default
  let r2 :=
    if ss2.direction = some .down then
      let ra := notifyStepEnterNoCheck cfg r1.1 i .up
      let rb := notifyStepExit cfg ra.1 i .up
      (rb.1, ra.2 ++ rb.2)
    else (r1.1, [])
  (r2.1, r1.2 ++ r2.2)

/-- A `for` loop over a list of step indices, threading the sequencer state
and concatenating the emitted events in order. -/
def runSteps (body : SeqState → ℕ → SeqState × List Event) :
    SeqState → List ℕ → SeqState × List Event
  | s, [] => (s, [])
  | s, j :: rest =>
      let r1 := body s j
      let r2 := runSteps body r1.1 rest
      (r2.1, r1.2 ++ r2.2)

/-- The loop target `'above' | 'below'` of `notifyOthers`. -/
inductive Loc
  | above
  | below
deriving DecidableEq, Repr

/-- `notifyOthers(index, location)`: `'above'` walks `i = 0 .. index-1`
upward; `'below'` walks `i = stepStates.length-1 .. index+1` downward. -/
def notifyOthers (cfg : SeqCfg) (s : SeqState) (index : ℕ) (loc : Loc) :
    SeqState × List Event :=
  match loc with
  | .above => runSteps (othersAboveStep cfg) s (List.range index)
  | .below =>
      runSteps (othersBelowStep cfg) s
        (((List.range s.stepStates.length).filter fun i => index < i).reverse)

/-- `notifyStepEnter(element, direction, check = true)`: records direction
and `'enter'`, runs the `preserveOrder` synthesis over the skipped steps
(above when moving down, below when moving up) when `check` is set, then
fires the guarded enter callback and progress priming. -/
def notifyStepEnter (cfg : SeqCfg) (s : SeqState) (index : ℕ) (d : Dir)
    (check : Bool := true) : SeqState × List Event :=
  let s1 := setStepState s index d .enter
  let rO :=
    if cfg.preserveOrder ∧ check ∧ d = .down then notifyOthers cfg s1 index .above
    else if cfg.preserveOrder ∧ check ∧ d = .up then notifyOthers cfg s1 index .below
    else (s1, [])
  let rT := enterTail cfg rO.1 index d
  (rT.1, rO.2 ++ rT.2)

/-- The step index an event is about. -/
def eventIndex : Event → ℕ
  | .enter i _ => i
  | .exit i _ => i
  | .progress i _ => i

/-- The sequencer configuration of the ordering claim: `preserveOrder` on,
`triggerOnce` off, progress mode off, enter and exit callbacks registered. -/
def cfgOrdered : SeqCfg :=
  { preserveOrder := true, triggerOnce := false, progressMode := false,
    hasEnterCb := true, hasExitCb := true, hasProgressCb := false }

/-- Modelled from the spec's words, amended to the source's direction test:
the synthesized events owed to one earlier step when step `index` enters
moving down — a step still recorded `'enter'` gets a synthesized exit, and
otherwise a step whose last recorded direction is `'up'` (it was last
crossed upward, so the downward pass skipped it) gets a synthesized
enter+exit pair. -/
def synthAbove (ss : StepState) (i : ℕ) : List Event :=
  if ss.state = some .enter then [.exit i .down]
  else if ss.direction = some .up then [.enter i .down, .exit i .down]
  else []

/-- Symmetric rule for an upward entry over the later steps: a step still
recorded `'enter'` gets a synthesized exit, otherwise a step whose last
recorded direction is `'down'` gets a synthesized enter+exit pair, all
with direction `'up'`. -/
def synthBelow (ss : StepState) (i : ℕ) : List Event :=
  if ss.state = some .enter then [.exit i .up]
  else if ss.direction = some .down then [.enter i .up, .exit i .up]
  else []

/-- The synthesized events owed to a list of step indices, read against one
fixed pre-pass state and delivered in list order. -/
def synthTrace (f : StepState → ℕ → List Event) (s : SeqState) :
    List ℕ → List Event
  | [] => []
  | j :: rest => f (s.stepStates.getD j default) j ++ synthTrace f s rest

/-- A three-step state used as a concrete input: step 0 was last crossed
upward (skipped), step 1 is currently entered, step 2 untouched; no step is
excluded. -/
def sampleSeqState : SeqState :=
  ⟨[⟨some .up, some .exit⟩, ⟨some .down, some .enter⟩, ⟨none, none⟩], []⟩

/-- A one-step state right after the step's first enter fired under
`triggerOnce`: the step is recorded entered and its exclusion flag is set. -/
def sampleOnceState : SeqState :=
  ⟨[⟨some .down, some .enter⟩], [true]⟩

/-- The callback bag `callback = {}` of `scrollama()`: whether each slot
currently holds a function (`onX` registers one; `destroy` nulls them). -/
structure Callback where
  stepEnter : Bool
  stepExit : Bool
  stepProgress : Bool
  containerEnter : Bool
  containerExit : Bool
deriving DecidableEq, Repr

/-- The observer handle bag `io = {}` of `scrollama()`. A handle is `none`
while unset (and again after `destroy` nulls it), `some true` while its
observer is connected and `some false` after `disconnect()`. The source
keeps one observer per step in the five array slots; all observers of one
slot are created and disconnected together, one flag per step here. -/
structure IOHandles where
  top : Option Bool
  bottom : Option Bool
  stepAbove : Option (List Bool)
  stepBelow : Option (List Bool)
  stepProgress : Option (List Bool)
  viewportAbove : Option (List Bool)
  viewportBelow : Option (List Bool)
deriving DecidableEq, Repr

/-- The per-handle `disconnect()` calls of `handleEnable(false)`: every
handle that exists is disconnected; absent handles stay absent. -/
def disconnectAll (io : IOHandles) : IOHandles :=
  { top := io.top.map fun _ => false,
    bottom := io.bottom.map fun _ => false,
    stepAbove := io.stepAbove.map (List.map fun _ => false),
    stepBelow := io.stepBelow.map (List.map fun _ => false),
    stepProgress := io.stepProgress.map (List.map fun _ => false),
    viewportAbove := io.viewportAbove.map (List.map fun _ => false),
    viewportBelow := io.viewportBelow.map (List.map fun _ => false) }

/-- The mutable fields of one `scrollama()` session closure. DOM element
handles are reduced to what the engine reads of them: `stepEl` to the
resolved step count, `containerEl`/`graphicEl` to presence flags. The
random `id` and the debug overlay are presentation-only and omitted. -/
structure Session where
  callback : Callback
  io : IOHandles
  containerPresent : Bool
  graphicPresent : Bool
  offsetVal : ℚ
  offsetMargin : ℚ
  vh : ℚ
  ph : ℚ
  stepCount : Option ℕ
  stepOffsetHeight : List ℚ
  stepOffsetTop : List ℚ
  isReady : Bool
  isEnabled : Bool
  debugMode : Bool
  progressMode : Bool
  progressThreshold : ℚ
  preserveOrder : Bool
  triggerOnce : Bool
  stepStates : Option (List StepState)
  containerState : Option StepState
  previousYOffset : ℚ
  direction : Option Dir
  stepsIndexed : Bool
  errors : List String
deriving DecidableEq, Repr

/-- The `let` initializers at the top of `scrollama()`. -/
def initialSession : Session :=
  { callback := ⟨false, false, false, false, false⟩,
    io := ⟨none, none, none, none, none, none, none⟩,
    containerPresent := false, graphicPresent := false,
    offsetVal := 0, offsetMargin := 0, vh := 0, ph := 0,
    stepCount := none, stepOffsetHeight := [], stepOffsetTop := [],
    isReady := false, isEnabled := false, debugMode := false,
    progressMode := false, progressThreshold := 0,
    preserveOrder := false, triggerOnce := false,
    stepStates := none, containerState := none,
    previousYOffset := -1, direction := none,
    stepsIndexed := false, errors := [] }

/-- `createThreshold(height)`: `count = Math.ceil(height / progressThreshold)`
equal sub-thresholds `i / count` for `i = 0 .. count - 1`. -/
def createThreshold (progressThreshold height : ℚ) : List ℚ :=
  let count : ℤ := ⌈height / progressThreshold⌉
  let ratio : ℚ := 1 / count
  (List.range count.toNat).map fun (i : ℕ) => (i : ℚ) * ratio

/-- What the engine reads from the host environment during `handleResize`:
`window.innerHeight`, the page height, and each step's `offsetHeight` and
offset-top. -/
structure Env where
  innerHeight : ℚ
  pageHeight : ℚ
  graphicHeight : ℚ
  stepHeights : List ℚ
  stepTops : List ℚ
deriving Repr

/-- `updateIO()` (named without the upper-case suffix): rebuilds the four
per-step observer groups, the progress group in progress mode, and the
container observers when both container and graphic resolved. -/
def updateObservers (s : Session) : Session :=
  let n := s.stepCount.getD 0
  { s with io :=
    { viewportAbove := some (List.replicate n true),
      viewportBelow := some (List.replicate n true),
      stepAbove := some (List.replicate n true),
      stepBelow := some (List.replicate n true),
      stepProgress := if s.progressMode then some (List.replicate n true)
        else s.io.stepProgress,
      top := if s.containerPresent ∧ s.graphicPresent then some true
        else s.io.top,
      bottom := if s.containerPresent ∧ s.graphicPresent then some true
        else s.io.bottom } }

/-- `handleEnable(enable)`: enabling an enabled session or re-disabling a
disabled one falls through; enabling rebuilds the observers when the
session is ready; disabling disconnects every existing handle. -/
def handleEnable (enable : Bool) (s : Session) : Session :=
  if enable ∧ ¬s.isEnabled then
    { (if s.isReady then updateObservers s else s) with isEnabled := true }
  else if ¬enable then
    { s with io := disconnectAll s.io, isEnabled := false }
  else s

/-- `handleResize()`: re-reads the geometry, recomputes the margin from the
current offset, and rebuilds the observers when enabled and ready. -/
def handleResize (env : Env) (s : Session) : Session :=
  let s1 := { s with
    vh := env.innerHeight,
    ph := env.pageHeight,
    offsetMargin := s.offsetVal * env.innerHeight,
    stepOffsetHeight := if s.stepCount.isSome then env.stepHeights else [],
    stepOffsetTop := if s.stepCount.isSome then env.stepTops else [] }
  if s1.isEnabled ∧ s1.isReady then updateObservers s1 else s1

/-- The two things `S.offsetTrigger` can return: the session handle `S`
(setter path) or the current offset value (getter path). -/
inductive OffsetTriggerReturn
  | session
  | value (q : ℚ)
deriving DecidableEq, Repr

/-- `S.offsetTrigger(x)`: the source's guard is `if (x && !isNaN(x))`, so an
argument of `0` is falsy and falls through to the getter return, exactly
like an omitted argument; a nonzero numeric argument is clamped into
`[0, 1]` and stored, and `S` is returned. -/
def offsetTrigger (x : Option ℚ) (s : Session) :
    Session × OffsetTriggerReturn :=
  match x with
  | some q =>
      if q ≠ 0 then ({ s with offsetVal := min (max 0 q) 1 }, .session)
      else (s, .value s.offsetVal)
  | none => (s, .value s.offsetVal)

/-- The options object accepted by `S.setup`, with `none` standing for an
absent key (the destructuring defaults then apply); the selector options
are reduced to whether they are given and resolve. -/
structure SetupOpts where
  container : Bool
  graphic : Bool
  offset : Option ℚ
  progress : Option Bool
  threshold : Option ℚ
  debug : Option Bool
  order : Option Bool
  once : Option Bool
deriving Repr

/-- The message `S.setup` logs through `console.error` when the step
selector resolves to nothing. -/
def errNoSteps : String := "scrollama error: no step elements"

/-- `S.setup(options)`: resolves the elements, errors out (recoverably)
on zero steps, otherwise stores the options, clamps the offset through
`S.offsetTrigger`, floors the progress threshold at 1, marks the session
ready, indexes the steps, builds the state tables, and runs the initial
resize and enable. `resolvedSteps` is what the `step` selector resolved
to. The source's first statement, `id = generateId()`, is random
presentation-only state and is omitted. -/
def setup (env : Env) (resolvedSteps : ℕ) (opts : SetupOpts)
    (s : Session) : Session :=
  let s1 := { s with
    stepCount := some resolvedSteps,
    containerPresent := opts.container,
    graphicPresent := opts.graphic }
  if resolvedSteps = 0 then
    { s1 with errors := s1.errors ++ [errNoSteps] }
  else
    let s2 := { s1 with
      debugMode := opts.debug.getD false,
      progressMode := opts.progress.getD false,
      preserveOrder := opts.order.getD true,
      triggerOnce := opts.once.getD false }
    let s3 := (offsetTrigger (some (opts.offset.getD (1/2))) s2).1
    let s4 := { s3 with progressThreshold := max 1 (opts.threshold.getD 4) }
    let s5 := { s4 with isReady := true }
    let s6 := { s5 with stepsIndexed := true }
    let s7 := { s6 with
      stepStates := some (List.replicate resolvedSteps ⟨none, none⟩),
      containerState := some ⟨none, none⟩ }
    handleEnable true (handleResize env s7)

/-- `S.disable()`. -/
def disable (s : Session) : Session :=
  handleEnable false s

/-- A concrete host environment used as a witness input. -/
def sampleEnv : Env :=
  ⟨100, 1000, 50, [10], [0]⟩

/-- A concrete minimal options object used as a witness input. -/
def sampleOpts : SetupOpts :=
  ⟨false, false, none, none, none, none, none, none⟩

/-- `S.enable()`. -/
def enable (s : Session) : Session :=
  handleEnable true s

/-- `S.destroy()`: disables, then nulls every callback slot and every
observer handle. -/
def destroy (s : Session) : Session :=
  let s1 := handleEnable false s
  { s1 with callback := ⟨false, false, false, false, false⟩,
            io := ⟨none, none, none, none, none, none, none⟩ }

end Scrollama

-- ## Theorems

namespace Scrollama

/-- Claim C3: for every pair of rectangles, `computeRectIntersection` returns
the rectangle with `top = max`, `bottom = min`, `left = max`, `right = min`
of the respective edges, with `width`/`height` recomputed, whenever both are
non-negative, and no intersection when either is negative; a returned
rectangle is exactly the common region of the two inputs (so edge-touching
pairs yield a zero-dimension rectangle rather than "no intersection"), and
`none` is returned only when the inputs share no point. -/
theorem computeRectIntersection_spec (a b : Rect) :
    (0 ≤ min a.right b.right - max a.left b.left ∧
     0 ≤ min a.bottom b.bottom - max a.top b.top →
      computeRectIntersection a b =
        some { top := max a.top b.top, bottom := min a.bottom b.bottom,
               left := max a.left b.left, right := min a.right b.right,
               width := min a.right b.right - max a.left b.left,
               height := min a.bottom b.bottom - max a.top b.top }) ∧
    (min a.right b.right - max a.left b.left < 0 ∨
     min a.bottom b.bottom - max a.top b.top < 0 →
      computeRectIntersection a b = none) ∧
    (∀ r, computeRectIntersection a b = some r →
      ∀ x y, pointIn r x y ↔ pointIn a x y ∧ pointIn b x y) ∧
    (computeRectIntersection a b = none →
      ∀ x y, ¬(pointIn a x y ∧ pointIn b x y)) := by
  refine ⟨?_, ?_, ?_, ?_⟩
  · intro h
    simp only [computeRectIntersection]
    rw [if_pos h]
  · intro h
    have hneg : ¬(0 ≤ min a.right b.right - max a.left b.left ∧
        0 ≤ min a.bottom b.bottom - max a.top b.top) := by
      rcases h with h | h
      · exact fun hc => absurd hc.1 (not_le.mpr h)
      · exact fun hc => absurd hc.2 (not_le.mpr h)
    simp only [computeRectIntersection]
    rw [if_neg hneg]
  · intro r hr x y
    simp only [computeRectIntersection] at hr
    by_cases h : 0 ≤ min a.right b.right - max a.left b.left ∧
        0 ≤ min a.bottom b.bottom - max a.top b.top
    · rw [if_pos h] at hr
      injection hr with hr
      subst hr
      unfold pointIn
      simp only [max_le_iff, le_min_iff]
      tauto
    · rw [if_neg h] at hr
      exact absurd hr (by simp)
  · intro hnone x y hxy
    simp only [computeRectIntersection] at hnone
    by_cases h : 0 ≤ min a.right b.right - max a.left b.left ∧
        0 ≤ min a.bottom b.bottom - max a.top b.top
    · rw [if_pos h] at hnone
      exact absurd hnone (by simp)
    · unfold pointIn at hxy
      obtain ⟨⟨ha1, ha2, ha3, ha4⟩, hb1, hb2, hb3, hb4⟩ := hxy
      apply h
      constructor
      · linarith [max_le ha1 hb1, le_min ha2 hb2]
      · linarith [max_le ha3 hb3, le_min ha4 hb4]

/-- Claim C6: margin expansion moves `top` down by the resolved top margin,
`right` out by the resolved right margin, `bottom` out by the resolved bottom
margin and `left` out by the resolved left margin, recomputing width and
height from the new edges; a `px` margin contributes its value directly while
a percentage margin contributes `value * rect.width / 100` for the left/right
margins and `value * rect.height / 100` for the top/bottom margins. -/
theorem expandRectByRootMargin_spec (rect : Rect) (v0 v1 v2 v3 : ℚ)
    (u0 u1 u2 u3 : MarginUnit) :
    (expandRectByRootMargin rect ⟨v0, u0⟩ ⟨v1, u1⟩ ⟨v2, u2⟩ ⟨v3, u3⟩).top =
        rect.top - (match u0 with
          | .px => v0
          | .pct => v0 * rect.height / 100) ∧
    (expandRectByRootMargin rect ⟨v0, u0⟩ ⟨v1, u1⟩ ⟨v2, u2⟩ ⟨v3, u3⟩).right =
        rect.right + (match u1 with
          | .px => v1
          | .pct => v1 * rect.width / 100) ∧
    (expandRectByRootMargin rect ⟨v0, u0⟩ ⟨v1, u1⟩ ⟨v2, u2⟩ ⟨v3, u3⟩).bottom =
        rect.bottom + (match u2 with
          | .px => v2
          | .pct => v2 * rect.height / 100) ∧
    (expandRectByRootMargin rect ⟨v0, u0⟩ ⟨v1, u1⟩ ⟨v2, u2⟩ ⟨v3, u3⟩).left =
        rect.left - (match u3 with
          | .px => v3
          | .pct => v3 * rect.width / 100) ∧
    (expandRectByRootMargin rect ⟨v0, u0⟩ ⟨v1, u1⟩ ⟨v2, u2⟩ ⟨v3, u3⟩).width =
        (expandRectByRootMargin rect ⟨v0, u0⟩ ⟨v1, u1⟩ ⟨v2, u2⟩ ⟨v3, u3⟩).right -
        (expandRectByRootMargin rect ⟨v0, u0⟩ ⟨v1, u1⟩ ⟨v2, u2⟩ ⟨v3, u3⟩).left ∧
    (expandRectByRootMargin rect ⟨v0, u0⟩ ⟨v1, u1⟩ ⟨v2, u2⟩ ⟨v3, u3⟩).height =
        (expandRectByRootMargin rect ⟨v0, u0⟩ ⟨v1, u1⟩ ⟨v2, u2⟩ ⟨v3, u3⟩).bottom -
        (expandRectByRootMargin rect ⟨v0, u0⟩ ⟨v1, u1⟩ ⟨v2, u2⟩ ⟨v3, u3⟩).top := by
  cases u0 <;> cases u1 <;> cases u2 <;> cases u3 <;>
    simp [expandRectByRootMargin, resolveMargin]

/-- Claim C2 counterexample: with threshold set `{0.3}`, a previous
intersecting report of ratio `0.3` and a new intersecting report of the same
ratio satisfy the claim's reporting condition (the threshold equals both
effective ratios), yet the registry reports no change: the source returns
early whenever the two effective ratios are equal. -/
theorem hasCrossedThreshold_equal_ratio_cex :
    crossedSpec [3/10] (effectiveRatio (some ⟨true, 3/10⟩))
      (effectiveRatio (some ⟨true, 3/10⟩)) ∧
    hasCrossedThreshold [3/10] (some ⟨true, 3/10⟩) ⟨true, 3/10⟩ = false := by
  constructor
  · exact ⟨3/10, by simp [effectiveRatio]⟩
  · norm_num [hasCrossedThreshold]

/-- Claim C2 (amended): a change is reported iff the two effective ratios
differ and some threshold equals one of them or separates them; in
particular `0.2 → 0.4` and `0.4 → 0.2` across threshold `0.3` are reported
and `0.2 → 0.25` with no threshold in between is not. -/
theorem hasCrossedThreshold_spec (thresholds : List ℚ)
    (oldEntry : Option ObsEntry) (newEntry : ObsEntry) :
    (hasCrossedThreshold thresholds oldEntry newEntry = true ↔
      (effectiveRatio oldEntry ≠ effectiveRatio (some newEntry) ∧
        crossedSpec thresholds (effectiveRatio oldEntry)
          (effectiveRatio (some newEntry)))) ∧
    hasCrossedThreshold [3/10] (some ⟨true, 1/5⟩) ⟨true, 2/5⟩ = true ∧
    hasCrossedThreshold [3/10] (some ⟨true, 2/5⟩) ⟨true, 1/5⟩ = true ∧
    hasCrossedThreshold [3/10] (some ⟨true, 1/5⟩) ⟨true, 1/4⟩ = false := by
  refine ⟨?_, by norm_num [hasCrossedThreshold], by norm_num [hasCrossedThreshold],
    by norm_num [hasCrossedThreshold]⟩
  unfold hasCrossedThreshold crossedSpec effectiveRatio
  by_cases heq : (match oldEntry with
      | some o => if o.isIntersecting then o.intersectionRatio else -1
      | none => (-1 : ℚ)) =
      (if newEntry.isIntersecting then newEntry.intersectionRatio else -1)
  · simp only [heq, if_pos rfl]
    simp [heq]
  · rw [if_neg heq]
    simp only [List.any_eq_true, Bool.or_eq_true, decide_eq_true_eq, bne_iff_ne,
      ne_eq, decide_eq_decide]
    constructor
    · rintro ⟨t, ht, h⟩
      exact ⟨heq, t, ht, by tauto⟩
    · rintro ⟨-, t, ht, h⟩
      exact ⟨t, ht, by tauto⟩

/-- Claim C7: the code evaluated at the failing input `[1e-7, 0.5]`. Both
values are valid thresholds (numeric and inside `[0, 1]`), yet
`_initThresholds` returns them as `[0.5, 1e-7]`: the comparator-less
`sort()` compares the elements' `ToString` images, and `"0.5"` precedes
`"1e-7"` lexicographically although `1e-7 < 0.5` numerically — so the
result is not sorted in increasing numeric order, against the claim and
the function's own documentation ("a sorted list of unique and valid
threshold values"). -/
theorem initThresholds_string_sort_bug :
    jsNumberChars (mkRat 1 10000000) = ['1', 'e', '-', '7'] ∧
    jsNumberChars (mkRat 1 2) = ['0', '.', '5'] ∧
    invalidThreshold (.num (mkRat 1 10000000)) = false ∧
    invalidThreshold (.num (mkRat 1 2)) = false ∧
    initThresholds (some [.num (mkRat 1 10000000), .num (mkRat 1 2)]) =
      .ok [mkRat 1 2, mkRat 1 10000000] ∧
    mkRat 1 10000000 < mkRat 1 2 ∧
    ¬ ([mkRat 1 2, mkRat 1 10000000].Sorted (· < ·)) ∧
    mkRat 1 10000000 = 1 / 10000000 ∧
    mkRat 1 2 = 1 / 2 := by
  refine ⟨by decide, by decide, by decide, by decide, rfl, by decide,
    by decide, ?_, ?_⟩ <;> rw [Rat.mkRat_eq_div] <;> norm_num

/-- Setting one list entry leaves every other position's `getD` unchanged. -/
theorem getD_set_of_ne {α : Type} (l : List α) (i k : ℕ) (a d : α)
    (h : k ≠ i) : (l.set i a).getD k d = l.getD k d := by
  simp [List.getD_eq_getElem?_getD, List.getElem?_set_ne h.symm]

/-- Setting an in-range list entry is read back by `getD`. -/
theorem getD_set_self {α : Type} (l : List α) (i : ℕ) (a d : α)
    (h : i < l.length) : (l.set i a).getD i d = a := by
  simp [List.getD_eq_getElem?_getD, List.getElem?_set_self, h]

/-- The sparse-array assignment `exclude[index] = true` reads back `true`. -/
theorem getD_setExclude_self (l : List Bool) (i : ℕ) :
    (setExclude l i).getD i false = true := by
  unfold setExclude
  by_cases h : i < l.length
  · rw [if_pos h]
    exact getD_set_self l i true false h
  · rw [if_neg h]
    rw [List.append_assoc, List.getD_eq_getElem?_getD,
      List.getElem?_append_right (Nat.le_of_not_lt h),
      List.getElem?_append_right (by simp)]
    simp

/-- The sparse-array assignment leaves every other index's read unchanged
(the holes it creates read back as the falsy default). -/
theorem getD_setExclude_ne (l : List Bool) (i k : ℕ) (h : k ≠ i) :
    (setExclude l i).getD k false = l.getD k false := by
  unfold setExclude
  by_cases hi : i < l.length
  · rw [if_pos hi]
    exact getD_set_of_ne l i k true false h
  · rw [if_neg hi, List.append_assoc]
    by_cases hk : k < l.length
    · rw [List.getD_eq_getElem?_getD, List.getElem?_append_left hk,
        ← List.getD_eq_getElem?_getD]
    · rw [List.getD_eq_getElem?_getD, List.getD_eq_getElem?_getD,
        List.getElem?_eq_none (Nat.le_of_not_lt hk),
        List.getElem?_append_right (Nat.le_of_not_lt hk),
        List.getElem?_append, List.getElem?_replicate]
      simp only [List.length_replicate, Option.getD_none]
      by_cases hj : k - l.length < i - l.length
      · rw [if_pos hj, if_pos hj]
        rfl
      · rw [if_neg hj, List.getElem?_eq_none (by simp; omega)]
        rfl

/-- `notifyStepExit` rewrites exactly the step's own state entry. -/
theorem notifyStepExit_fst (cfg : SeqCfg) (s : SeqState) (i : ℕ) (d : Dir) :
    (notifyStepExit cfg s i d).1 = setStepState s i d .exit := rfl

/-- The enter tail never touches the `stepStates` array. -/
theorem enterTail_fst_stepStates (cfg : SeqCfg) (s : SeqState) (i : ℕ)
    (d : Dir) : (enterTail cfg s i d).1.stepStates = s.stepStates := by
  unfold enterTail
  split
  · split <;> rfl
  · rfl

/-- With `triggerOnce` off, the enter tail leaves the whole state unchanged. -/
theorem enterTail_fst_of_not_once (cfg : SeqCfg) (s : SeqState) (i : ℕ)
    (d : Dir) (h : cfg.triggerOnce = false) : (enterTail cfg s i d).1 = s := by
  unfold enterTail
  rw [h]
  split <;> rfl

/-- The enter tail touches the exclusion array only at its own index. -/
theorem enterTail_fst_exclude_ne (cfg : SeqCfg) (s : SeqState) (i : ℕ)
    (d : Dir) (k : ℕ) (hk : k ≠ i) :
    (enterTail cfg s i d).1.exclude.getD k false = s.exclude.getD k false := by
  unfold enterTail
  split
  · split
    · exact getD_setExclude_ne s.exclude i k hk
    · rfl
  · rfl

/-- Every event the enter tail emits is about its own index. -/
theorem enterTail_events (cfg : SeqCfg) (s : SeqState) (i : ℕ) (d : Dir) :
    ∀ e ∈ (enterTail cfg s i d).2, eventIndex e = i := by
  intro e he
  simp only [enterTail, notifyStepProgress, List.mem_append] at he
  split_ifs at he <;> simp_all [eventIndex] <;> rcases he with rfl | rfl <;> rfl

/-- Every event `notifyStepExit` emits is about its own index. -/
theorem notifyStepExit_events (cfg : SeqCfg) (s : SeqState) (i : ℕ) (d : Dir) :
    ∀ e ∈ (notifyStepExit cfg s i d).2, eventIndex e = i := by
  intro e he
  simp only [notifyStepExit, notifyStepProgress, List.mem_append] at he
  split_ifs at he <;> simp_all [eventIndex] <;> rcases he with rfl | rfl <;> rfl

/-- `setStepState` rewrites nothing but the `stepStates` entry. -/
theorem setStepState_exclude (s : SeqState) (i : ℕ) (d : Dir) (ph : Phase) :
    (setStepState s i d ph).exclude = s.exclude := rfl

/-- A step recorded in some phase exists in the state table. -/
theorem lt_length_of_state_eq {s : SeqState} {i : ℕ} {ph : Phase}
    (h : (s.stepStates.getD i default).state = some ph) :
    i < s.stepStates.length := by
  by_contra hge
  rw [List.getD_eq_getElem?_getD,
    List.getElem?_eq_none (Nat.le_of_not_lt hge)] at h
  simp [default] at h

/-- The `'above'` loop body leaves every other step's entry unchanged, and
never changes the table's length. -/
theorem othersAboveStep_stepStates (cfg : SeqCfg) (s : SeqState) (i : ℕ) :
    (othersAboveStep cfg s i).1.stepStates = s.stepStates ∨
    ∃ v, (othersAboveStep cfg s i).1.stepStates = s.stepStates.set i v := by
  simp only [othersAboveStep, notifyStepEnterNoCheck]
  split
  · split
    · refine Or.inr ⟨⟨some .down, some .exit⟩, ?_⟩
      rw [notifyStepExit_fst]
      simp only [setStepState, enterTail_fst_stepStates,
        notifyStepExit_fst]
      rw [List.set_set, List.set_set]
    · exact Or.inr ⟨⟨some .down, some .exit⟩, by rw [notifyStepExit_fst]; rfl⟩
  · split
    · refine Or.inr ⟨⟨some .down, some .exit⟩, ?_⟩
      rw [notifyStepExit_fst]
      simp only [setStepState, enterTail_fst_stepStates]
      rw [List.set_set]
    · exact Or.inl rfl

/-- The `'below'` loop body leaves every other step's entry unchanged, and
never changes the table's length. -/
theorem othersBelowStep_stepStates (cfg : SeqCfg) (s : SeqState) (i : ℕ) :
    (othersBelowStep cfg s i).1.stepStates = s.stepStates ∨
    ∃ v, (othersBelowStep cfg s i).1.stepStates = s.stepStates.set i v := by
  simp only [othersBelowStep, notifyStepEnterNoCheck]
  split
  · split
    · refine Or.inr ⟨⟨some .up, some .exit⟩, ?_⟩
      rw [notifyStepExit_fst]
      simp only [setStepState, enterTail_fst_stepStates,
        notifyStepExit_fst]
      rw [List.set_set, List.set_set]
    · exact Or.inr ⟨⟨some .up, some .exit⟩, by rw [notifyStepExit_fst]; rfl⟩
  · split
    · refine Or.inr ⟨⟨some .up, some .exit⟩, ?_⟩
      rw [notifyStepExit_fst]
      simp only [setStepState, enterTail_fst_stepStates]
      rw [List.set_set]
    · exact Or.inl rfl

/-- The `'above'` loop body touches the exclusion array only at its own
index. -/
theorem othersAboveStep_exclude_ne (cfg : SeqCfg) (s : SeqState) (i k : ℕ)
    (hk : k ≠ i) :
    (othersAboveStep cfg s i).1.exclude.getD k false =
      s.exclude.getD k false := by
  simp only [othersAboveStep, notifyStepEnterNoCheck]
  split
  · split
    · rw [notifyStepExit_fst, setStepState_exclude,
        enterTail_fst_exclude_ne _ _ _ _ _ hk, setStepState_exclude,
        notifyStepExit_fst, setStepState_exclude]
    · rw [notifyStepExit_fst, setStepState_exclude]
  · split
    · rw [notifyStepExit_fst, setStepState_exclude,
        enterTail_fst_exclude_ne _ _ _ _ _ hk, setStepState_exclude]
    · rfl

/-- The `'below'` loop body touches the exclusion array only at its own
index. -/
theorem othersBelowStep_exclude_ne (cfg : SeqCfg) (s : SeqState) (i k : ℕ)
    (hk : k ≠ i) :
    (othersBelowStep cfg s i).1.exclude.getD k false =
      s.exclude.getD k false := by
  simp only [othersBelowStep, notifyStepEnterNoCheck]
  split
  · split
    · rw [notifyStepExit_fst, setStepState_exclude,
        enterTail_fst_exclude_ne _ _ _ _ _ hk, setStepState_exclude,
        notifyStepExit_fst, setStepState_exclude]
    · rw [notifyStepExit_fst, setStepState_exclude]
  · split
    · rw [notifyStepExit_fst, setStepState_exclude,
        enterTail_fst_exclude_ne _ _ _ _ _ hk, setStepState_exclude]
    · rfl

/-- Every event the `'above'` loop body emits is about its own index. -/
theorem othersAboveStep_events (cfg : SeqCfg) (s : SeqState) (i : ℕ) :
    ∀ e ∈ (othersAboveStep cfg s i).2, eventIndex e = i := by
  simp only [othersAboveStep, notifyStepEnterNoCheck]
  split
  · split
    · intro e he
      rcases List.mem_append.mp he with he | he
      · exact notifyStepExit_events _ _ _ _ e he
      · rcases List.mem_append.mp he with he | he
        · exact enterTail_events _ _ _ _ e he
        · exact notifyStepExit_events _ _ _ _ e he
    · intro e he
      rcases List.mem_append.mp he with he | he
      · exact notifyStepExit_events _ _ _ _ e he
      · simp at he
  · split
    · intro e he
      rcases List.mem_append.mp he with he | he
      · simp at he
      · rcases List.mem_append.mp he with he | he
        · exact enterTail_events _ _ _ _ e he
        · exact notifyStepExit_events _ _ _ _ e he
    · intro e he
      simp at he

/-- Every event the `'below'` loop body emits is about its own index. -/
theorem othersBelowStep_events (cfg : SeqCfg) (s : SeqState) (i : ℕ) :
    ∀ e ∈ (othersBelowStep cfg s i).2, eventIndex e = i := by
  simp only [othersBelowStep, notifyStepEnterNoCheck]
  split
  · split
    · intro e he
      rcases List.mem_append.mp he with he | he
      · exact notifyStepExit_events _ _ _ _ e he
      · rcases List.mem_append.mp he with he | he
        · exact enterTail_events _ _ _ _ e he
        · exact notifyStepExit_events _ _ _ _ e he
    · intro e he
      rcases List.mem_append.mp he with he | he
      · exact notifyStepExit_events _ _ _ _ e he
      · simp at he
  · split
    · intro e he
      rcases List.mem_append.mp he with he | he
      · simp at he
      · rcases List.mem_append.mp he with he | he
        · exact enterTail_events _ _ _ _ e he
        · exact notifyStepExit_events _ _ _ _ e he
    · intro e he
      simp at he

/-- With progress mode off and an exit callback registered, a step exit
emits exactly the exit event. -/
theorem notifyStepExit_snd (cfg : SeqCfg) (s : SeqState) (i : ℕ) (d : Dir)
    (hpm : cfg.progressMode = false) (hexi : cfg.hasExitCb = true) :
    (notifyStepExit cfg s i d).2 = [Event.exit i d] := by
  simp [notifyStepExit, hpm, hexi]

/-- With progress mode off, an enter callback registered and the index not
excluded, the enter tail emits exactly the enter event. -/
theorem enterTail_snd (cfg : SeqCfg) (s : SeqState) (i : ℕ) (d : Dir)
    (hpm : cfg.progressMode = false) (hen : cfg.hasEnterCb = true)
    (hexc : s.exclude.getD i false = false) :
    (enterTail cfg s i d).2 = [Event.enter i d] := by
  rw [List.getD_eq_getElem?_getD] at hexc
  simp [enterTail, hpm, hen, hexc]

/-- With `triggerOnce` off, the `'above'` loop body leaves the exclusion
array untouched. -/
theorem othersAboveStep_exclude_of_not_once (cfg : SeqCfg) (s : SeqState)
    (i : ℕ) (h : cfg.triggerOnce = false) :
    (othersAboveStep cfg s i).1.exclude = s.exclude := by
  simp only [othersAboveStep, notifyStepEnterNoCheck]
  split
  · split
    · rw [notifyStepExit_fst, setStepState_exclude,
        enterTail_fst_of_not_once _ _ _ _ h, setStepState_exclude,
        notifyStepExit_fst, setStepState_exclude]
    · rw [notifyStepExit_fst, setStepState_exclude]
  · split
    · rw [notifyStepExit_fst, setStepState_exclude,
        enterTail_fst_of_not_once _ _ _ _ h, setStepState_exclude]
    · rfl

/-- With `triggerOnce` off, the `'below'` loop body leaves the exclusion
array untouched. -/
theorem othersBelowStep_exclude_of_not_once (cfg : SeqCfg) (s : SeqState)
    (i : ℕ) (h : cfg.triggerOnce = false) :
    (othersBelowStep cfg s i).1.exclude = s.exclude := by
  simp only [othersBelowStep, notifyStepEnterNoCheck]
  split
  · split
    · rw [notifyStepExit_fst, setStepState_exclude,
        enterTail_fst_of_not_once _ _ _ _ h, setStepState_exclude,
        notifyStepExit_fst, setStepState_exclude]
    · rw [notifyStepExit_fst, setStepState_exclude]
  · split
    · rw [notifyStepExit_fst, setStepState_exclude,
        enterTail_fst_of_not_once _ _ _ _ h, setStepState_exclude]
    · rfl

/-- Under the ordering configuration's constraints, one `'above'` loop body
iteration emits exactly the synthesized events the amended claim describes,
as a function of the step's recorded state. -/
theorem othersAboveStep_spec (cfg : SeqCfg) (s : SeqState) (i : ℕ)
    (_hto : cfg.triggerOnce = false) (hpm : cfg.progressMode = false)
    (hen : cfg.hasEnterCb = true) (hexi : cfg.hasExitCb = true)
    (hexc : s.exclude.getD i false = false) :
    (othersAboveStep cfg s i).2 = synthAbove (s.stepStates.getD i default) i := by
  simp only [othersAboveStep, notifyStepEnterNoCheck, synthAbove]
  by_cases h1 : (s.stepStates.getD i default).state = some Phase.enter
  · rw [if_pos h1, if_pos h1]
    have hi : i < s.stepStates.length := lt_length_of_state_eq h1
    have hss2 : (notifyStepExit cfg s i .down).1.stepStates.getD i default =
        ⟨some .down, some .exit⟩ := by
      rw [notifyStepExit_fst]
      exact getD_set_self _ _ _ _ hi
    rw [if_neg (by rw [hss2]; simp)]
    rw [notifyStepExit_snd _ _ _ _ hpm hexi]
    simp
  · rw [if_neg h1, if_neg h1]
    by_cases h2 : (s.stepStates.getD i default).direction = some Dir.up
    · rw [if_pos h2, if_pos h2]
      rw [enterTail_snd _ _ _ _ hpm hen
        (by rw [setStepState_exclude]; exact hexc)]
      rw [notifyStepExit_snd _ _ _ _ hpm hexi]
      simp
    · rw [if_neg h2, if_neg h2]
      rfl

/-- Under the ordering configuration's constraints, one `'below'` loop body
iteration emits exactly the synthesized events of the symmetric rule. -/
theorem othersBelowStep_spec (cfg : SeqCfg) (s : SeqState) (i : ℕ)
    (_hto : cfg.triggerOnce = false) (hpm : cfg.progressMode = false)
    (hen : cfg.hasEnterCb = true) (hexi : cfg.hasExitCb = true)
    (hexc : s.exclude.getD i false = false) :
    (othersBelowStep cfg s i).2 = synthBelow (s.stepStates.getD i default) i := by
  simp only [othersBelowStep, notifyStepEnterNoCheck, synthBelow]
  by_cases h1 : (s.stepStates.getD i default).state = some Phase.enter
  · rw [if_pos h1, if_pos h1]
    have hi : i < s.stepStates.length := lt_length_of_state_eq h1
    have hss2 : (notifyStepExit cfg s i .up).1.stepStates.getD i default =
        ⟨some .up, some .exit⟩ := by
      rw [notifyStepExit_fst]
      exact getD_set_self _ _ _ _ hi
    rw [if_neg (by rw [hss2]; simp)]
    rw [notifyStepExit_snd _ _ _ _ hpm hexi]
    simp
  · rw [if_neg h1, if_neg h1]
    by_cases h2 : (s.stepStates.getD i default).direction = some Dir.down
    · rw [if_pos h2, if_pos h2]
      rw [enterTail_snd _ _ _ _ hpm hen
        (by rw [setStepState_exclude]; exact hexc)]
      rw [notifyStepExit_snd _ _ _ _ hpm hexi]
      simp
    · rw [if_neg h2, if_neg h2]
      rfl

/-- Reading the synthesized events against two states that agree on the
listed indices gives the same trace. -/
theorem synthTrace_congr (f : StepState → ℕ → List Event) (s1 s2 : SeqState)
    (L : List ℕ)
    (h : ∀ k ∈ L, s1.stepStates.getD k default = s2.stepStates.getD k default) :
    synthTrace f s1 L = synthTrace f s2 L := by
  induction L with
  | nil => rfl
  | cons j rest ih =>
    unfold synthTrace
    rw [h j (List.mem_cons_self _ _), ih fun k hk => h k (List.mem_cons_of_mem _ hk)]

/-- The loop over a duplicate-free index list whose body acts locally at its
own index: the whole pass emits the per-index synthesized events, read
against the pre-pass state and concatenated in list order, and leaves the
exclusion array, the off-list entries and the table length unchanged. -/
theorem runSteps_spec (body : SeqState → ℕ → SeqState × List Event)
    (f : StepState → ℕ → List Event)
    (hb_tr : ∀ s j, s.exclude.getD j false = false →
        (body s j).2 = f (s.stepStates.getD j default) j)
    (hb_st : ∀ s j, (body s j).1.stepStates = s.stepStates ∨
        ∃ v, (body s j).1.stepStates = s.stepStates.set j v)
    (hb_ex : ∀ s j, (body s j).1.exclude = s.exclude) :
    ∀ (L : List ℕ) (s : SeqState), L.Nodup →
      (∀ j ∈ L, s.exclude.getD j false = false) →
      (runSteps body s L).2 = synthTrace f s L ∧
      (runSteps body s L).1.exclude = s.exclude ∧
      (∀ k, k ∉ L → (runSteps body s L).1.stepStates.getD k default =
        s.stepStates.getD k default) ∧
      (runSteps body s L).1.stepStates.length = s.stepStates.length := by
  intro L
  induction L with
  | nil => exact fun s _ _ => ⟨rfl, rfl, fun k _ => rfl, rfl⟩
  | cons j rest ih =>
    intro s hnd hexc
    have hndr : rest.Nodup := (List.nodup_cons.mp hnd).2
    have hjr : j ∉ rest := (List.nodup_cons.mp hnd).1
    have hb1 : (body s j).2 = f (s.stepStates.getD j default) j :=
      hb_tr s j (hexc j (List.mem_cons_self _ _))
    have hex1 : (body s j).1.exclude = s.exclude := hb_ex s j
    have hst_ne : ∀ k, k ≠ j →
        (body s j).1.stepStates.getD k default = s.stepStates.getD k default := by
      intro k hk
      rcases hb_st s j with h | ⟨v, h⟩
      · rw [h]
      · rw [h]
        exact getD_set_of_ne _ _ _ _ _ hk
    have hlen1 : (body s j).1.stepStates.length = s.stepStates.length := by
      rcases hb_st s j with h | ⟨v, h⟩ <;> simp [h]
    obtain ⟨ih_tr, ih_ex, ih_st, ih_len⟩ :=
      ih (body s j).1 hndr fun k hk => by
        rw [hex1]
        exact hexc k (List.mem_cons_of_mem _ hk)
    refine ⟨?_, ?_, ?_, ?_⟩
    · show (body s j).2 ++ (runSteps body (body s j).1 rest).2 = _
      rw [hb1, ih_tr]
      show f (s.stepStates.getD j default) j ++ synthTrace f (body s j).1 rest =
        f (s.stepStates.getD j default) j ++ synthTrace f s rest
      congr 1
      apply synthTrace_congr
      intro k hk
      exact hst_ne k fun hkj => hjr (hkj ▸ hk)
    · show (runSteps body (body s j).1 rest).1.exclude = s.exclude
      rw [ih_ex, hex1]
    · intro k hk
      have hks : k ∉ rest := fun h => hk (List.mem_cons_of_mem _ h)
      have hkj : k ≠ j := fun h => hk (h ▸ List.mem_cons_self _ _)
      show (runSteps body (body s j).1 rest).1.stepStates.getD k default = _
      rw [ih_st k hks, hst_ne k hkj]
    · show (runSteps body (body s j).1 rest).1.stepStates.length = _
      rw [ih_len, hlen1]

/-- Claim C1 counterexample: with `preserveOrder` on, a genuine enter of
step 1 moving down over an earlier step recorded as (direction `'down'`,
phase `'exit'`) delivers only step 1's enter. The claim as stated requires a
synthesized enter+exit for that earlier step — its last recorded direction
was also down — but the source synthesizes the pair only for recorded
direction `'up'`. -/
theorem notifyStepEnter_skipped_down_cex :
    (notifyStepEnter cfgOrdered
        ⟨[⟨some .down, some .exit⟩, ⟨none, none⟩], []⟩ 1 .down true).2 =
      [Event.enter 1 .down] ∧
    Event.enter 0 .down ∉
      (notifyStepEnter cfgOrdered
        ⟨[⟨some .down, some .exit⟩, ⟨none, none⟩], []⟩ 1 .down true).2 := by
  refine ⟨rfl, ?_⟩
  intro h
  rw [show (notifyStepEnter cfgOrdered
      ⟨[⟨some .down, some .exit⟩, ⟨none, none⟩], []⟩ 1 .down true).2 =
    [Event.enter 1 .down] from rfl] at h
  simp at h

/-- Claim C1 (amended): with `preserveOrder` on (`triggerOnce` off, progress
off, enter and exit callbacks registered) and no step excluded, a genuine
enter for step `i` moving down first delivers, for each step `j < i` in
increasing index order, a synthesized exit if step `j` is still recorded
`'entered'`, and a synthesized enter followed by a synthesized exit if its
last recorded direction was `'up'` (it was skipped, having last been crossed
on the way up) — all before step `i`'s own enter callback; symmetrically, an
upward entry walks the steps above `i` in decreasing index order with the
directions swapped. -/
theorem notifyStepEnter_preserveOrder_spec (s : SeqState) (i : ℕ)
    (hexc : ∀ j, s.exclude.getD j false = false) :
    (notifyStepEnter cfgOrdered s i .down true).2 =
      synthTrace synthAbove s (List.range i) ++ [Event.enter i .down] ∧
    (notifyStepEnter cfgOrdered s i .up true).2 =
      synthTrace synthBelow s
        (((List.range s.stepStates.length).filter fun k => i < k).reverse) ++
        [Event.enter i .up] := by
  have hexc1 : ∀ (d : Dir) (ph : Phase) (j : ℕ),
      (setStepState s i d ph).exclude.getD j false = false := by
    intro d ph j
    rw [setStepState_exclude]
    exact hexc j
  constructor
  · simp only [notifyStepEnter, notifyOthers]
    rw [if_pos (by simp [cfgOrdered])]
    obtain ⟨htr, hex, hst, hlen⟩ := runSteps_spec (othersAboveStep cfgOrdered)
      synthAbove
      (fun s' j h => othersAboveStep_spec cfgOrdered s' j rfl rfl rfl rfl h)
      (othersAboveStep_stepStates cfgOrdered)
      (fun s' j => othersAboveStep_exclude_of_not_once cfgOrdered s' j rfl)
      (List.range i) (setStepState s i .down .enter) (List.nodup_range i)
      (fun j _ => hexc1 _ _ j)
    show (runSteps (othersAboveStep cfgOrdered) (setStepState s i .down .enter)
        (List.range i)).2 ++
      (enterTail cfgOrdered (runSteps (othersAboveStep cfgOrdered)
        (setStepState s i .down .enter) (List.range i)).1 i .down).2 = _
    rw [htr, enterTail_snd _ _ _ _ rfl rfl
      (by rw [hex, setStepState_exclude]; exact hexc i)]
    congr 1
    apply synthTrace_congr
    intro k hk
    simp only [setStepState]
    exact getD_set_of_ne _ _ _ _ _ (Nat.ne_of_lt (List.mem_range.mp hk))
  · simp only [notifyStepEnter, notifyOthers]
    rw [if_neg (by rintro ⟨-, -, h⟩; cases h), if_pos (by simp [cfgOrdered])]
    have hL : ((List.range (setStepState s i .up .enter).stepStates.length).filter
        fun k => i < k).reverse =
        ((List.range s.stepStates.length).filter fun k => i < k).reverse := by
      simp [setStepState]
    rw [hL]
    have hnd : (((List.range s.stepStates.length).filter fun k => i < k).reverse).Nodup :=
      List.nodup_reverse.mpr ((List.nodup_range _).filter _)
    have hmem : ∀ k ∈ ((List.range s.stepStates.length).filter
        fun k => i < k).reverse, i < k := by
      intro k hk
      rw [List.mem_reverse, List.mem_filter] at hk
      exact of_decide_eq_true hk.2
    obtain ⟨htr, hex, hst, hlen⟩ := runSteps_spec (othersBelowStep cfgOrdered)
      synthBelow
      (fun s' j h => othersBelowStep_spec cfgOrdered s' j rfl rfl rfl rfl h)
      (othersBelowStep_stepStates cfgOrdered)
      (fun s' j => othersBelowStep_exclude_of_not_once cfgOrdered s' j rfl)
      (((List.range s.stepStates.length).filter fun k => i < k).reverse)
      (setStepState s i .up .enter) hnd (fun j _ => hexc1 _ _ j)
    show (runSteps (othersBelowStep cfgOrdered) (setStepState s i .up .enter)
        (((List.range s.stepStates.length).filter fun k => i < k).reverse)).2 ++
      (enterTail cfgOrdered (runSteps (othersBelowStep cfgOrdered)
        (setStepState s i .up .enter)
        (((List.range s.stepStates.length).filter fun k => i < k).reverse)).1
        i .up).2 = _
    rw [htr, enterTail_snd _ _ _ _ rfl rfl
      (by rw [hex, setStepState_exclude]; exact hexc i)]
    congr 1
    apply synthTrace_congr
    intro k hk
    simp only [setStepState]
    exact getD_set_of_ne _ _ _ _ _ (Ne.symm (Nat.ne_of_lt (hmem k hk)))

/-- Concrete run of the amended ordering rule: on `sampleSeqState`, entering
step 2 downward synthesizes enter+exit for skipped step 0 and an exit for
still-entered step 1, in index order, before step 2's enter; entering step 2
upward finds nothing above it. -/
theorem notifyStepEnter_preserveOrder_witness :
    (∀ j, sampleSeqState.exclude.getD j false = false) ∧
    ((notifyStepEnter cfgOrdered sampleSeqState 2 .down true).2 =
        synthTrace synthAbove sampleSeqState (List.range 2) ++
          [Event.enter 2 .down] ∧
      (notifyStepEnter cfgOrdered sampleSeqState 2 .up true).2 =
        synthTrace synthBelow sampleSeqState
          (((List.range sampleSeqState.stepStates.length).filter
            fun k => 2 < k).reverse) ++ [Event.enter 2 .up]) :=
  have h : ∀ j, sampleSeqState.exclude.getD j false = false := fun j => by
    simp [sampleSeqState, List.getD_eq_getElem?_getD]
  ⟨h, notifyStepEnter_preserveOrder_spec sampleSeqState 2 h⟩

/-- With progress mode off, an excluded step's enter tail emits nothing. -/
theorem enterTail_snd_excluded (cfg : SeqCfg) (s : SeqState) (i : ℕ) (d : Dir)
    (hpm : cfg.progressMode = false) (hexc : s.exclude.getD i false = true) :
    (enterTail cfg s i d).2 = [] := by
  rw [List.getD_eq_getElem?_getD] at hexc
  simp [enterTail, hpm, hexc]

/-- Under `triggerOnce`, a first enter callback sets the exclusion flag. -/
theorem enterTail_fst_exclude_once (cfg : SeqCfg) (s : SeqState) (i : ℕ)
    (d : Dir) (hto : cfg.triggerOnce = true) (hen : cfg.hasEnterCb = true)
    (hexc : s.exclude.getD i false = false) :
    (enterTail cfg s i d).1.exclude.getD i false = true := by
  simp only [enterTail]
  rw [if_pos ⟨hen, by rw [List.getD_eq_getElem?_getD] at hexc; simp [hexc]⟩]
  show (if cfg.triggerOnce = true then
      { s with exclude := setExclude s.exclude i } else s).exclude.getD i false =
    true
  rw [hto, if_pos rfl]
  exact getD_setExclude_self s.exclude i

/-- The loop over any index list whose body acts locally: the exclusion
array and the state table are unchanged off the list, and every emitted
event is about a listed index. -/
theorem runSteps_local (body : SeqState → ℕ → SeqState × List Event)
    (hb_st : ∀ s j, (body s j).1.stepStates = s.stepStates ∨
        ∃ v, (body s j).1.stepStates = s.stepStates.set j v)
    (hb_ex : ∀ s j k, k ≠ j →
        (body s j).1.exclude.getD k false = s.exclude.getD k false)
    (hb_ev : ∀ s j, ∀ e ∈ (body s j).2, eventIndex e = j) :
    ∀ (L : List ℕ) (s : SeqState),
      (∀ k, k ∉ L → (runSteps body s L).1.exclude.getD k false =
        s.exclude.getD k false) ∧
      (∀ k, k ∉ L → (runSteps body s L).1.stepStates.getD k default =
        s.stepStates.getD k default) ∧
      (∀ e ∈ (runSteps body s L).2, eventIndex e ∈ L) := by
  intro L
  induction L with
  | nil =>
    intro s
    exact ⟨fun k _ => rfl, fun k _ => rfl,
      fun e he => absurd he (List.not_mem_nil e)⟩
  | cons j rest ih =>
    intro s
    obtain ⟨ih_ex, ih_st, ih_ev⟩ := ih (body s j).1
    refine ⟨?_, ?_, ?_⟩
    · intro k hk
      have hkj : k ≠ j := fun h => hk (h ▸ List.mem_cons_self _ _)
      have hkr : k ∉ rest := fun h => hk (List.mem_cons_of_mem _ h)
      show (runSteps body (body s j).1 rest).1.exclude.getD k false = _
      rw [ih_ex k hkr, hb_ex s j k hkj]
    · intro k hk
      have hkj : k ≠ j := fun h => hk (h ▸ List.mem_cons_self _ _)
      have hkr : k ∉ rest := fun h => hk (List.mem_cons_of_mem _ h)
      show (runSteps body (body s j).1 rest).1.stepStates.getD k default = _
      rw [ih_st k hkr]
      rcases hb_st s j with h | ⟨v, h⟩
      · rw [h]
      · rw [h]
        exact getD_set_of_ne _ _ _ _ _ hkj
    · intro e he
      show eventIndex e ∈ j :: rest
      rcases List.mem_append.mp he with he | he
      · exact (hb_ev s j e he) ▸ List.mem_cons_self _ _
      · exact List.mem_cons_of_mem _ (ih_ev e he)

/-- `notifyOthers` never emits an event about the entering step itself, and
leaves the entering step's exclusion flag and state entry unchanged. -/
theorem notifyOthers_local (cfg : SeqCfg) (s : SeqState) (index : ℕ)
    (loc : Loc) :
    (∀ e ∈ (notifyOthers cfg s index loc).2, eventIndex e ≠ index) ∧
    (notifyOthers cfg s index loc).1.exclude.getD index false =
      s.exclude.getD index false ∧
    (notifyOthers cfg s index loc).1.stepStates.getD index default =
      s.stepStates.getD index default := by
  cases loc with
  | above =>
    obtain ⟨hex, hst, hev⟩ := runSteps_local (othersAboveStep cfg)
      (othersAboveStep_stepStates cfg)
      (fun s' j k hk => othersAboveStep_exclude_ne cfg s' j k hk)
      (othersAboveStep_events cfg) (List.range index) s
    have hni : index ∉ List.range index := by simp
    exact ⟨fun e he hcon => hni (hcon ▸ hev e he),
      hex index hni, hst index hni⟩
  | below =>
    obtain ⟨hex, hst, hev⟩ := runSteps_local (othersBelowStep cfg)
      (othersBelowStep_stepStates cfg)
      (fun s' j k hk => othersBelowStep_exclude_ne cfg s' j k hk)
      (othersBelowStep_events cfg)
      (((List.range s.stepStates.length).filter fun k => index < k).reverse) s
    have hni : index ∉ ((List.range s.stepStates.length).filter
        fun k => index < k).reverse := by
      intro h
      rw [List.mem_reverse, List.mem_filter] at h
      exact absurd (of_decide_eq_true h.2) (lt_irrefl index)
    exact ⟨fun e he hcon => hni (hcon ▸ hev e he),
      hex index hni, hst index hni⟩

/-- `notifyStepEnter` decomposed: it is the ordering pass (events never
about the step itself, exclusion flag and state entry of the step
untouched) followed by the enter tail. -/
theorem notifyStepEnter_decomp (cfg : SeqCfg) (s : SeqState) (i : ℕ)
    (d : Dir) (check : Bool) :
    ∃ rO : SeqState × List Event,
      notifyStepEnter cfg s i d check =
        ((enterTail cfg rO.1 i d).1, rO.2 ++ (enterTail cfg rO.1 i d).2) ∧
      (∀ e ∈ rO.2, eventIndex e ≠ i) ∧
      rO.1.exclude.getD i false =
        (setStepState s i d .enter).exclude.getD i false ∧
      rO.1.stepStates.getD i default =
        (setStepState s i d .enter).stepStates.getD i default := by
  refine ⟨if cfg.preserveOrder ∧ check ∧ d = .down then
      notifyOthers cfg (setStepState s i d .enter) i .above
    else if cfg.preserveOrder ∧ check ∧ d = .up then
      notifyOthers cfg (setStepState s i d .enter) i .below
    else (setStepState s i d .enter, []), rfl, ?_⟩
  split
  · exact notifyOthers_local cfg (setStepState s i d .enter) i .above
  · split
    · exact notifyOthers_local cfg (setStepState s i d .enter) i .below
    · exact ⟨fun e he => absurd he (List.not_mem_nil e), rfl, rfl⟩

/-- Claim C4 counterexample: with `triggerOnce` on, after step 0's enter
callback has fired (which sets the exclusion flag), a subsequent exit
crossing still fires the exit callback — the source's `notifyStepExit`
never consults the exclusion flag, so exit callbacks are not suppressed. -/
theorem triggerOnce_exit_cex :
    (notifyStepEnter ⟨false, true, false, true, true, false⟩
        ⟨[⟨none, none⟩], []⟩ 0 .down true).2 = [Event.enter 0 .down] ∧
    (notifyStepEnter ⟨false, true, false, true, true, false⟩
        ⟨[⟨none, none⟩], []⟩ 0 .down true).1.exclude.getD 0 false = true ∧
    (notifyStepExit ⟨false, true, false, true, true, false⟩
        (notifyStepEnter ⟨false, true, false, true, true, false⟩
          ⟨[⟨none, none⟩], []⟩ 0 .down true).1 0 .down).2 =
      [Event.exit 0 .down] :=
  ⟨rfl, rfl, rfl⟩

/-- Claim C4 (amended): with `triggerOnce` on (progress off, both callbacks
registered, any `preserveOrder`), once a step's exclusion flag is set its
enter callback is suppressed while its `StepState` is still updated; the
step's exit callback is not suppressed — it still fires, and updates the
state as well; and a first enter with the flag clear fires the enter
callback and sets the flag. -/
theorem triggerOnce_spec (po : Bool) (s : SeqState) (i : ℕ) (d : Dir)
    (hlen : i < s.stepStates.length)
    (hflag : s.exclude.getD i false = true) :
    Event.enter i d ∉
      (notifyStepEnter ⟨po, true, false, true, true, false⟩ s i d true).2 ∧
    (notifyStepEnter ⟨po, true, false, true, true, false⟩ s i d
        true).1.stepStates.getD i default = ⟨some d, some .enter⟩ ∧
    (notifyStepExit ⟨po, true, false, true, true, false⟩ s i d).2 =
      [Event.exit i d] ∧
    (notifyStepExit ⟨po, true, false, true, true, false⟩ s i
        d).1.stepStates.getD i default = ⟨some d, some .exit⟩ ∧
    (∀ s' : SeqState, s'.exclude.getD i false = false →
      Event.enter i d ∈
        (notifyStepEnter ⟨po, true, false, true, true, false⟩ s' i d true).2 ∧
      (notifyStepEnter ⟨po, true, false, true, true, false⟩ s' i d
          true).1.exclude.getD i false = true) := by
  obtain ⟨rO, heq, hev, hexP, hstP⟩ :=
    notifyStepEnter_decomp ⟨po, true, false, true, true, false⟩ s i d true
  rw [setStepState_exclude] at hexP
  refine ⟨?_, ?_, ?_, ?_, ?_⟩
  · rw [heq]
    intro h
    rcases List.mem_append.mp h with h | h
    · exact hev _ h rfl
    · rw [enterTail_snd_excluded _ _ _ _ rfl (by rw [hexP]; exact hflag)] at h
      exact absurd h (List.not_mem_nil _)
  · rw [heq]
    show (enterTail _ rO.1 i d).1.stepStates.getD i default = _
    rw [enterTail_fst_stepStates, hstP]
    show (s.stepStates.set i ⟨some d, some .enter⟩).getD i default = _
    exact getD_set_self _ _ _ _ hlen
  · exact notifyStepExit_snd _ _ _ _ rfl rfl
  · rw [notifyStepExit_fst]
    show (s.stepStates.set i ⟨some d, some .exit⟩).getD i default = _
    exact getD_set_self _ _ _ _ hlen
  · intro s' hs'
    obtain ⟨rO', heq', hev', hexP', hstP'⟩ :=
      notifyStepEnter_decomp ⟨po, true, false, true, true, false⟩ s' i d true
    rw [setStepState_exclude] at hexP'
    constructor
    · rw [heq']
      apply List.mem_append.mpr
      right
      rw [enterTail_snd _ _ _ _ rfl rfl (by rw [hexP']; exact hs')]
      exact List.mem_singleton.mpr rfl
    · rw [heq']
      show (enterTail _ rO'.1 i d).1.exclude.getD i false = true
      exact enterTail_fst_exclude_once _ _ _ _ rfl rfl
        (by rw [hexP']; exact hs')

/-- Concrete run of the amended `triggerOnce` rule on the one-step state
with the flag already set. -/
theorem triggerOnce_witness :
    0 < sampleOnceState.stepStates.length ∧
    sampleOnceState.exclude.getD 0 false = true ∧
    (Event.enter 0 .down ∉
      (notifyStepEnter ⟨false, true, false, true, true, false⟩
        sampleOnceState 0 .down true).2 ∧
    (notifyStepEnter ⟨false, true, false, true, true, false⟩ sampleOnceState
        0 .down true).1.stepStates.getD 0 default =
      ⟨some .down, some .enter⟩ ∧
    (notifyStepExit ⟨false, true, false, true, true, false⟩ sampleOnceState
        0 .down).2 = [Event.exit 0 .down] ∧
    (notifyStepExit ⟨false, true, false, true, true, false⟩ sampleOnceState 0
        .down).1.stepStates.getD 0 default = ⟨some .down, some .exit⟩ ∧
    (∀ s' : SeqState, s'.exclude.getD 0 false = false →
      Event.enter 0 .down ∈
        (notifyStepEnter ⟨false, true, false, true, true, false⟩ s' 0 .down
          true).2 ∧
      (notifyStepEnter ⟨false, true, false, true, true, false⟩ s' 0 .down
          true).1.exclude.getD 0 false = true)) :=
  ⟨by decide, rfl,
    triggerOnce_spec false sampleOnceState 0 .down (by decide) rfl⟩

/-- Claim C10: for every positive height, the progress threshold list built
by `createThreshold` with the progress threshold floored at 1 (as `setup`
does with `Math.max(1, +threshold)`) has exactly
`count = ceil(height / progressThreshold)` entries, its `k`-th entry is
`k / count`, it begins at 0, consecutive entries differ by the uniform
spacing `1 / count`, and the ratio 1 is never an entry. -/
theorem createThreshold_spec (thr height : ℚ) (hh : 0 < height) :
    (createThreshold (max 1 thr) height).length =
      (⌈height / max 1 thr⌉ : ℤ).toNat ∧
    1 ≤ ⌈height / max 1 thr⌉ ∧
    (∀ k (hk : k < (createThreshold (max 1 thr) height).length),
      (createThreshold (max 1 thr) height).get ⟨k, hk⟩ =
        (k : ℚ) / ((⌈height / max 1 thr⌉ : ℤ) : ℚ)) ∧
    (createThreshold (max 1 thr) height).head? = some 0 ∧
    (∀ k (hk : k + 1 < (createThreshold (max 1 thr) height).length),
      (createThreshold (max 1 thr) height).get ⟨k + 1, hk⟩ =
        (createThreshold (max 1 thr) height).get ⟨k, Nat.lt_of_succ_lt hk⟩ +
          1 / ((⌈height / max 1 thr⌉ : ℤ) : ℚ)) ∧
    (1 : ℚ) ∉ createThreshold (max 1 thr) height := by
  have hpt : (0 : ℚ) < max 1 thr := lt_of_lt_of_le zero_lt_one (le_max_left 1 thr)
  have hcount : 1 ≤ ⌈height / max 1 thr⌉ := by
    have := Int.ceil_pos.mpr (div_pos hh hpt)
    omega
  have hcQ : (0 : ℚ) < ((⌈height / max 1 thr⌉ : ℤ) : ℚ) := by
    exact_mod_cast (by omega : (0 : ℤ) < ⌈height / max 1 thr⌉)
  have hcne : ((⌈height / max 1 thr⌉ : ℤ) : ℚ) ≠ 0 := ne_of_gt hcQ
  have hlen : (createThreshold (max 1 thr) height).length =
      (⌈height / max 1 thr⌉ : ℤ).toNat := by
    simp [createThreshold]
  have hget : ∀ k (hk : k < (createThreshold (max 1 thr) height).length),
      (createThreshold (max 1 thr) height).get ⟨k, hk⟩ =
        (k : ℚ) / ((⌈height / max 1 thr⌉ : ℤ) : ℚ) := by
    intro k hk
    simp only [createThreshold, List.get_eq_getElem, List.getElem_map,
      List.getElem_range]
    rw [mul_one_div]
  refine ⟨hlen, hcount, hget, ?_, ?_, ?_⟩
  · have h1n : 1 ≤ (⌈height / max 1 thr⌉ : ℤ).toNat := by omega
    obtain ⟨m, hm⟩ : ∃ m, (⌈height / max 1 thr⌉ : ℤ).toNat = m + 1 :=
      ⟨(⌈height / max 1 thr⌉ : ℤ).toNat - 1, by omega⟩
    simp only [createThreshold]
    rw [hm, List.range_succ_eq_map]
    simp
  · intro k hk
    rw [hget _ hk, hget _ (Nat.lt_of_succ_lt hk)]
    push_cast
    field_simp
  · intro hmem
    simp only [createThreshold, List.mem_map, List.mem_range] at hmem
    obtain ⟨k, hk, hkeq⟩ := hmem
    rw [mul_one_div] at hkeq
    have : (k : ℚ) = ((⌈height / max 1 thr⌉ : ℤ) : ℚ) := by
      field_simp at hkeq
      exact hkeq
    have hkz : (k : ℤ) = ⌈height / max 1 thr⌉ := by exact_mod_cast this
    rw [Int.lt_toNat] at hk
    omega

/-- Concrete run of the progress-threshold invariant at threshold 4 and
step height 10 (three sub-thresholds `[0, 1/3, 2/3]`). -/
theorem createThreshold_witness :
    (0 : ℚ) < 10 ∧
    ((createThreshold (max 1 4) 10).length = (⌈(10 : ℚ) / max 1 4⌉ : ℤ).toNat ∧
    1 ≤ ⌈(10 : ℚ) / max 1 4⌉ ∧
    (∀ k (hk : k < (createThreshold (max 1 (4 : ℚ)) 10).length),
      (createThreshold (max 1 4) 10).get ⟨k, hk⟩ =
        (k : ℚ) / ((⌈(10 : ℚ) / max 1 4⌉ : ℤ) : ℚ)) ∧
    (createThreshold (max 1 (4 : ℚ)) 10).head? = some 0 ∧
    (∀ k (hk : k + 1 < (createThreshold (max 1 (4 : ℚ)) 10).length),
      (createThreshold (max 1 4) 10).get ⟨k + 1, hk⟩ =
        (createThreshold (max 1 4) 10).get ⟨k, Nat.lt_of_succ_lt hk⟩ +
          1 / ((⌈(10 : ℚ) / max 1 4⌉ : ℤ) : ℚ)) ∧
    (1 : ℚ) ∉ createThreshold (max 1 (4 : ℚ)) 10) :=
  ⟨by norm_num, createThreshold_spec 4 10 (by norm_num)⟩

/-- Claim C8: setup with zero resolved step regions logs the configuration
error and returns the session otherwise untouched — on a fresh session it
stays not ready and not enabled, no state tables are built, no steps are
indexed, no observers are created, and no exception is raised (the function
is total and returns). -/
theorem setup_no_steps_spec (env : Env) (opts : SetupOpts) :
    (∀ s : Session, setup env 0 opts s =
      { s with stepCount := some 0,
               containerPresent := opts.container,
               graphicPresent := opts.graphic,
               errors := s.errors ++ [errNoSteps] }) ∧
    (setup env 0 opts initialSession).isReady = false ∧
    (setup env 0 opts initialSession).stepStates = none ∧
    (setup env 0 opts initialSession).containerState = none ∧
    (setup env 0 opts initialSession).io =
      ⟨none, none, none, none, none, none, none⟩ ∧
    (setup env 0 opts initialSession).stepsIndexed = false ∧
    (setup env 0 opts initialSession).isEnabled = false ∧
    (setup env 0 opts initialSession).errors = [errNoSteps] := by
  have h : ∀ s : Session, setup env 0 opts s =
      { s with stepCount := some 0,
               containerPresent := opts.container,
               graphicPresent := opts.graphic,
               errors := s.errors ++ [errNoSteps] } := fun s => rfl
  refine ⟨h, ?_, ?_, ?_, ?_, ?_, ?_, ?_⟩ <;> rw [h initialSession] <;> rfl

/-- Claim C9: `disable()` disconnects every observer handle and marks the
session disabled while leaving the step state table, the container state,
the recorded scroll offset and direction, the configuration and the
registered callbacks unchanged, so `enable()` resumes from the same logical
state; `destroy()` additionally nulls every callback slot and every
observer handle. -/
theorem disable_enable_destroy_spec (s : Session) :
    (disable s).isEnabled = false ∧
    (disable s).io = disconnectAll s.io ∧
    (disable s).stepStates = s.stepStates ∧
    (disable s).containerState = s.containerState ∧
    (disable s).previousYOffset = s.previousYOffset ∧
    (disable s).direction = s.direction ∧
    (disable s).callback = s.callback ∧
    (disable s).offsetVal = s.offsetVal ∧
    (disable s).progressMode = s.progressMode ∧
    (disable s).progressThreshold = s.progressThreshold ∧
    (disable s).preserveOrder = s.preserveOrder ∧
    (disable s).triggerOnce = s.triggerOnce ∧
    (disable s).debugMode = s.debugMode ∧
    (disable s).isReady = s.isReady ∧
    (enable (disable s)).isEnabled = true ∧
    (enable (disable s)).stepStates = s.stepStates ∧
    (enable (disable s)).containerState = s.containerState ∧
    (enable (disable s)).previousYOffset = s.previousYOffset ∧
    (enable (disable s)).direction = s.direction ∧
    (enable (disable s)).callback = s.callback ∧
    (destroy s).callback = ⟨false, false, false, false, false⟩ ∧
    (destroy s).io = ⟨none, none, none, none, none, none, none⟩ ∧
    (destroy s).stepStates = s.stepStates ∧
    (destroy s).containerState = s.containerState := by
  refine ⟨?_, ?_, ?_, ?_, ?_, ?_, ?_, ?_, ?_, ?_, ?_, ?_, ?_, ?_, ?_, ?_,
    ?_, ?_, ?_, ?_, ?_, ?_, ?_, ?_⟩ <;>
    by_cases hr : s.isReady <;>
    simp [disable, enable, destroy, handleEnable, updateObservers,
      disconnectAll, hr]

/-- `handleResize` never changes the stored trigger offset. -/
theorem handleResize_offsetVal (env : Env) (t : Session) :
    (handleResize env t).offsetVal = t.offsetVal := by
  simp only [handleResize]
  split
  · simp [updateObservers]
  · rfl

/-- `handleEnable` never changes the stored trigger offset. -/
theorem handleEnable_offsetVal (b : Bool) (t : Session) :
    (handleEnable b t).offsetVal = t.offsetVal := by
  simp only [handleEnable]
  split
  · split <;> simp [updateObservers]
  · split <;> rfl

/-- Claim C5 counterexample: on a session whose offset is 0.5, calling
`offsetTrigger(0)` neither stores the clamped value 0 nor returns the
session — the source's falsy-argument guard treats 0 as the getter call,
returning the current value and leaving the offset at 0.5. -/
theorem offsetTrigger_zero_cex :
    (offsetTrigger (some 0) { initialSession with offsetVal := 1/2 }).1.offsetVal
      = 1/2 ∧
    (offsetTrigger (some 0) { initialSession with offsetVal := 1/2 }).2 =
      .value (1/2) ∧
    min (max 0 (0 : ℚ)) 1 = 0 := by
  refine ⟨?_, ?_, by norm_num⟩ <;> norm_num [offsetTrigger]

/-- Claim C5 (amended): for every nonzero numeric argument, `offsetTrigger`
stores the argument clamped into `[0, 1]` and returns the session; with no
argument — or, deviating from the claim, with the falsy argument 0 — it
acts as the getter, returning the current offset and changing nothing;
`setup` (offset option defaulting to 0.5) still leaves the fresh session's
offset at the clamped option value for every offset, the fresh offset
being 0. -/
theorem offsetTrigger_spec (s : Session) (x : ℚ) (env : Env) (n : ℕ)
    (opts : SetupOpts) (hx : x ≠ 0) (hn : 0 < n) :
    offsetTrigger (some x) s =
      ({ s with offsetVal := min (max 0 x) 1 }, .session) ∧
    offsetTrigger none s = (s, .value s.offsetVal) ∧
    offsetTrigger (some 0) s = (s, .value s.offsetVal) ∧
    (setup env n opts initialSession).offsetVal =
      min (max 0 (opts.offset.getD (1/2))) 1 := by
  refine ⟨by simp [offsetTrigger, hx], rfl, by simp [offsetTrigger], ?_⟩
  unfold setup
  rw [if_neg hn.ne']
  rw [handleEnable_offsetVal, handleResize_offsetVal]
  show (offsetTrigger (some (opts.offset.getD (1/2))) _).1.offsetVal = _
  by_cases hoff : opts.offset.getD (1/2) = 0
  · rw [hoff]
    simp only [offsetTrigger]
    rw [if_neg (by simp)]
    show initialSession.offsetVal = _
    norm_num [initialSession]
  · simp only [offsetTrigger]
    rw [if_pos hoff]

/-- Concrete run of the amended offset rule: setting 3/4 on a fresh
session, the getter paths, and a one-step setup with the default offset. -/
theorem offsetTrigger_witness :
    (3 : ℚ)/4 ≠ 0 ∧ 0 < 1 ∧
    (offsetTrigger (some ((3 : ℚ)/4)) initialSession =
      ({ initialSession with offsetVal := min (max 0 ((3 : ℚ)/4)) 1 },
        .session) ∧
    offsetTrigger none initialSession =
      (initialSession, .value initialSession.offsetVal) ∧
    offsetTrigger (some 0) initialSession =
      (initialSession, .value initialSession.offsetVal) ∧
    (setup sampleEnv 1 sampleOpts initialSession).offsetVal =
      min (max 0 (sampleOpts.offset.getD (1/2))) 1) :=
  ⟨by norm_num, by decide,
    offsetTrigger_spec initialSession ((3 : ℚ)/4) sampleEnv 1 sampleOpts
      (by norm_num) (by decide)⟩

end Scrollama
